import Mathlib

/-!
Shallow embedding of the session timer / lap-segmentation engine and the
timeline XML serializer of `src/app.py`.

Wall-clock timestamps and second counts are modelled as rationals.  Python's
`int(x)` (truncation toward zero) is `pyInt`, Python's `%` on numbers with a
positive divisor is `pymod`, and Python truthiness of the `start_time`
session value (`None` and `0.0` are falsy) is `pyTruthy`.
-/

namespace AudioTimer

/-- Python `int(x)`: truncation toward zero. -/
def pyInt (q : ℚ) : ℤ := if 0 ≤ q then ⌊q⌋ else ⌈q⌉

/-- Python `a % b` on numbers (divisor positive in every use): `a - b * ⌊a / b⌋`. -/
def pymod (a b : ℚ) : ℚ := a - b * ⌊a / b⌋

/-- Left-pad a string with zeros to a given width, as Python `f"{n:0wd}"` does
for the digit part. -/
def padZeros (w : Nat) (s : String) : String :=
  if s.length < w then String.mk (List.replicate (w - s.length) '0') ++ s else s

/-- Python `f"{n:0wd}"` for an integer: zero-padding goes between the sign and
the digits. -/
def fmtInt (w : Nat) (n : ℤ) : String :=
  if n < 0 then "-" ++ padZeros (w - 1) (Nat.repr n.natAbs) else padZeros w (Nat.repr n.toNat)

/-- `format_time` of `src/app.py` (lines 61-67): `hours = int(seconds // 3600)`,
`minutes = int((seconds % 3600) // 60)`, `secs = int(seconds % 60)`,
`milliseconds = int((seconds % 1) * 1000)`, rendered `"HH:MM:SS.mmm"`. -/
def format_time (seconds : ℚ) : String :=
  fmtInt 2 ⌊seconds / 3600⌋ ++ ":" ++ fmtInt 2 ⌊pymod seconds 3600 / 60⌋ ++ ":"
    ++ fmtInt 2 (pyInt (pymod seconds 60)) ++ "." ++ fmtInt 3 (pyInt (pymod seconds 1 * 1000))

/-- `timecode_to_frames` of `src/app.py` (lines 69-71): `int(seconds * fps)`. -/
def timecode_to_frames (seconds : ℚ) (fps : ℕ) : ℤ := pyInt (seconds * fps)

/-- One lap/section dict as built by the Stop Lap handler (lines 604-610). -/
structure Lap where
  start_time : ℚ
  end_time : ℚ
  duration : ℚ
  title : String
  script_text : String
deriving DecidableEq, Inhabited

/-- The timer-relevant slice of `st.session_state` (lines 38-47). -/
structure Session where
  running : Bool
  start_time : Option ℚ
  elapsed_time : ℚ
  laps : List Lap
  current_lap_start : ℚ
deriving DecidableEq, Inhabited

/-- The initial session state (lines 38-47). -/
def initSession : Session :=
  { running := false, start_time := none, elapsed_time := 0, laps := [], current_lap_start := 0 }

/-- Python truthiness of the `start_time` value: `None` and `0.0` are falsy. -/
def pyTruthy : Option ℚ → Bool
  | none => false
  | some q => if q = 0 then false else true

/-- `current_elapsed` (lines 577-580): banked time plus the live run when
`running and start_time` is truthy, evaluated at wall-clock instant `now`. -/
def current_elapsed (now : ℚ) (s : Session) : ℚ :=
  if s.running && pyTruthy s.start_time then
    s.elapsed_time + (now - s.start_time.getD 0)
  else
    s.elapsed_time

/-- The Start handler (lines 588-592).  The button is only rendered while the
clock is not running, so a start while running is the identity. -/
def startHandler (t : ℚ) (s : Session) : Session :=
  if s.running then s else { s with running := true, start_time := some t }

/-- The Pause handler (lines 593-598).  The button is only rendered while the
clock is running, so a pause while not running is the identity.  A running
state always carries a start timestamp, so the `getD 0` fallback is never
taken from a reachable state. -/
def pauseHandler (t : ℚ) (s : Session) : Session :=
  if s.running then
    { s with running := false,
             elapsed_time := s.elapsed_time + (t - s.start_time.getD 0),
             start_time := none }
  else s

/-- The Stop Lap button's enabled condition (line 601):
`disabled = not running and elapsed_time == 0`. -/
def stopLapEnabled (s : Session) : Bool :=
  s.running || (if s.elapsed_time = 0 then false else true)

/-- The lap dict the Stop Lap handler appends (lines 604-610): from the
cursor to the current elapsed value, with the positional default title. -/
def newLap (t : ℚ) (s : Session) : Lap :=
  { start_time := s.current_lap_start,
    end_time := current_elapsed t s,
    duration := current_elapsed t s - s.current_lap_start,
    title := "Section " ++ Nat.repr (s.laps.length + 1),
    script_text := "" }

/-- The Stop Lap handler (lines 601-613): when enabled, append a lap running
from the cursor to the current elapsed value and advance the cursor. -/
def stopLapHandler (t : ℚ) (s : Session) : Session :=
  if stopLapEnabled s then
    { s with laps := s.laps ++ [newLap t s], current_lap_start := current_elapsed t s }
  else s

/-- The Reset All handler (lines 616-622). -/
def resetAllHandler (s : Session) : Session :=
  { s with running := false, start_time := none, elapsed_time := 0,
           laps := [], current_lap_start := 0 }

/-- Replace the element at an index by its image under `f`; out-of-range
indices leave the list unchanged. -/
def modifyLap (f : Lap → Lap) : Nat → List Lap → List Lap
  | _, [] => []
  | 0, lap :: rest => f lap :: rest
  | n + 1, lap :: rest => lap :: modifyLap f n rest

/-- The section-title edit (lines 632-637):
`st.session_state.laps[i]['title'] = new_title`, with no emptiness check.
The text input is only rendered for an existing index. -/
def renameHandler (i : Nat) (newTitle : String) (s : Session) : Session :=
  { s with laps := modifyLap (fun lap => { lap with title := newTitle }) i s.laps }

/-- The section-script edit (lines 639-646):
`st.session_state.laps[i]['script_text'] = script_text`. -/
def setScriptHandler (i : Nat) (txt : String) (s : Session) : Session :=
  { s with laps := modifyLap (fun lap => { lap with script_text := txt }) i s.laps }

/-- The Delete Section handler (lines 656-658): `st.session_state.laps.pop(i)`.
The delete button is only rendered for an existing index, so `i` is always in
range when this runs. -/
def deleteHandler (i : Nat) (s : Session) : Session :=
  { s with laps := s.laps.eraseIdx i }

/-- A user action on the session, carrying the wall-clock instant of the
click where the handler reads `time.time()` / `current_elapsed`. -/
inductive SEvent where
  | startE (t : ℚ)
  | pauseE (t : ℚ)
  | lapE (t : ℚ)
  | resetE
  | renameE (i : Nat) (title : String)
  | scriptE (i : Nat) (txt : String)
  | deleteE (i : Nat)
deriving DecidableEq

/-- Dispatch one user action to its handler. -/
def stepSession (s : Session) : SEvent → Session
  | .startE t => startHandler t s
  | .pauseE t => pauseHandler t s
  | .lapE t => stopLapHandler t s
  | .resetE => resetAllHandler s
  | .renameE i ti => renameHandler i ti s
  | .scriptE i tx => setScriptHandler i tx s
  | .deleteE i => deleteHandler i s

/-- Run a sequence of user actions. -/
def runSession (s : Session) (evs : List SEvent) : Session :=
  evs.foldl stepSession s

/-- Events that are neither a deletion nor a reset. -/
def noDeleteReset : SEvent → Bool
  | .resetE => false
  | .deleteE _ => false
  | _ => true

/-- An alternating start/pause event sequence from a list of
(start instant, pause instant) pairs. -/
def clockEvents : List (ℚ × ℚ) → List SEvent
  | [] => []
  | (a, b) :: rest => .startE a :: .pauseE b :: clockEvents rest

/-- Sum of the durations of the running intervals. -/
def intervalSum : List (ℚ × ℚ) → ℚ
  | [] => 0
  | (a, b) :: rest => (b - a) + intervalSum rest

/-- The section list is gapless starting from `c`: each section starts where
the previous one ended. -/
def chainedFrom : ℚ → List Lap → Prop
  | _, [] => True
  | c, lap :: rest => lap.start_time = c ∧ chainedFrom lap.end_time rest

/-- End of the chain: the `end_time` of the last section, or `c` for an empty
list. -/
def lastEndFrom (c : ℚ) : List Lap → ℚ
  | [] => c
  | lap :: rest => lastEndFrom lap.end_time rest

/-- Every section records `duration == end_time - start_time`. -/
def durationInv (s : Session) : Prop :=
  ∀ lap ∈ s.laps, lap.duration = lap.end_time - lap.start_time

/-- The spec's "empty after trimming whitespace": every character is
whitespace. -/
def isBlank (s : String) : Bool := s.toList.all Char.isWhitespace

/-- The `marker` element nested in a clipitem (lines 288-292); numeric text
children are modelled as the integers that are stringified. -/
structure MarkerXML where
  name : String
  comment : String
  in_ : ℤ
  out : ℤ
deriving DecidableEq, Inhabited

/-- One `clipitem` element (lines 274-292). -/
structure ClipItemXML where
  id : String
  name : String
  duration : ℤ
  timebase : ℕ
  ntsc : String
  in_ : ℤ
  out : ℤ
  start : ℤ
  end_ : ℤ
  marker : MarkerXML
deriving DecidableEq, Inhabited

/-- The `sequence` element of the generated document (lines 252-296). -/
structure SequenceXML where
  name : String
  duration : ℤ
  timebase : ℕ
  ntsc : String
  tc_string : String
  tc_frame : ℤ
  clips : List ClipItemXML
deriving DecidableEq, Inhabited

/-- The clipitem built for the lap at 0-based position `i` (lines 274-292). -/
def clipOfLap (fps : ℕ) (i : Nat) (lap : Lap) : ClipItemXML :=
  { id := "clipitem-" ++ Nat.repr (i + 1)
    name := lap.title
    duration := timecode_to_frames lap.duration fps
    timebase := fps
    ntsc := "FALSE"
    in_ := 0
    out := timecode_to_frames lap.duration fps
    start := timecode_to_frames lap.start_time fps
    end_ := timecode_to_frames lap.end_time fps
    marker := { name := lap.title
                comment := "Duration: " ++ format_time lap.duration
                in_ := timecode_to_frames lap.start_time fps
                out := timecode_to_frames lap.end_time fps } }

/-- `generate_resolve_xml` (lines 250-296), as the element tree it serializes. -/
def generate_resolve_xml (laps : List Lap) (fps : ℕ) (project_name : String) : SequenceXML :=
  { name := project_name
    duration := match laps.getLast? with
      | some lap => timecode_to_frames lap.end_time fps
      | none => 0
    timebase := fps
    ntsc := "FALSE"
    tc_string := "00:00:00:00"
    tc_frame := 0
    clips := laps.enum.map fun p => clipOfLap fps p.1 p.2 }

/-- The two-section input of the round-trip scenario: Intro 0-12.5s. -/
def introLap : Lap :=
  { start_time := 0, end_time := 12.5, duration := 12.5, title := "Intro", script_text := "" }

/-- The two-section input of the round-trip scenario: Hall 12.5-40.0s. -/
def hallLap : Lap :=
  { start_time := 12.5, end_time := 40, duration := 27.5, title := "Hall", script_text := "" }

/-- A concrete one-section session used to exercise the editing handlers. -/
def sampleSession : Session :=
  { running := false, start_time := none, elapsed_time := 5,
    laps := [{ start_time := 0, end_time := 5, duration := 5,
               title := "Section 1", script_text := "notes" }],
    current_lap_start := 5 }

/-- A concrete three-section session used to exercise deletion. -/
def threeSession : Session :=
  { running := false, start_time := none, elapsed_time := 9,
    laps := [{ start_time := 0, end_time := 2, duration := 2,
               title := "Section 1", script_text := "a" },
             { start_time := 2, end_time := 5, duration := 3,
               title := "Section 2", script_text := "b" },
             { start_time := 5, end_time := 9, duration := 4,
               title := "Section 3", script_text := "c" }],
    current_lap_start := 9 }

/-- The gapless-and-cursor invariant of the session's section list. -/
def chainInv (s : Session) : Prop :=
  chainedFrom 0 s.laps ∧ s.current_lap_start = lastEndFrom 0 s.laps

/-- Floor of a rational divided by a positive natural, as euclidean division of
its floor. -/
theorem floor_div_nat_int (q : ℚ) (n : ℕ) (hn : 0 < n) : ⌊q / (n : ℚ)⌋ = ⌊q⌋ / (n : ℤ) := by
  have hnq : (0 : ℚ) < (n : ℚ) := by exact_mod_cast hn
  have hnz : (n : ℤ) ≠ 0 := by exact_mod_cast hn.ne.symm
  have hmod := Int.ediv_add_emod ⌊q⌋ (n : ℤ)
  have hmn := Int.emod_nonneg ⌊q⌋ hnz
  have hml := Int.emod_lt_of_pos ⌊q⌋ (show (0 : ℤ) < (n : ℤ) by exact_mod_cast hn)
  rw [Int.floor_eq_iff]
  constructor
  · rw [le_div_iff₀ hnq]
    have h1 : ((⌊q⌋ / (n : ℤ)) * (n : ℤ) : ℤ) ≤ ⌊q⌋ := by nlinarith [hmod, hmn]
    have h1q : (((⌊q⌋ / (n : ℤ)) * (n : ℤ) : ℤ) : ℚ) ≤ ((⌊q⌋ : ℤ) : ℚ) := by exact_mod_cast h1
    have hfl := Int.floor_le q
    push_cast at h1q
    linarith
  · rw [div_lt_iff₀ hnq]
    have h2 : ⌊q⌋ + 1 ≤ ((⌊q⌋ / (n : ℤ)) + 1) * (n : ℤ) := by nlinarith [hmod, hmn, hml]
    have h2q : ((⌊q⌋ + 1 : ℤ) : ℚ) ≤ ((((⌊q⌋ / (n : ℤ)) + 1) * (n : ℤ) : ℤ) : ℚ) := by
      exact_mod_cast h2
    have hfl := Int.lt_floor_add_one q
    push_cast at h2q
    linarith

/-- A Python modulus with positive divisor is nonnegative. -/
theorem pymod_nonneg (a b : ℚ) (hb : 0 < b) : 0 ≤ pymod a b := by
  have h := Int.floor_le (a / b)
  have hm : b * (⌊a / b⌋ : ℚ) ≤ b * (a / b) := mul_le_mul_of_nonneg_left h hb.le
  rw [mul_div_cancel₀] at hm
  · unfold pymod; linarith
  · exact hb.ne.symm

/-- Truncation agrees with floor on nonnegative arguments. -/
theorem pyInt_of_nonneg (q : ℚ) (h : 0 ≤ q) : pyInt q = ⌊q⌋ := by
  unfold pyInt; rw [if_pos h]

/-- The minutes component computed by the code equals minutes mod 60. -/
theorem minutes_eq (s : ℚ) : ⌊pymod s 3600 / 60⌋ = ⌊s / 60⌋ % 60 := by
  have e1 : pymod s 3600 / 60 = s / 60 - ((60 * ⌊s / 3600⌋ : ℤ) : ℚ) := by
    unfold pymod; push_cast; ring
  have e3 : s / 3600 = s / 60 / 60 := by ring
  have h := floor_div_nat_int (s / 60) 60 (by norm_num)
  norm_num at h
  rw [e1, Int.floor_sub_int, e3, h, Int.emod_def]

/-- The seconds component computed by the code equals whole seconds mod 60. -/
theorem secs_eq (s : ℚ) : pyInt (pymod s 60) = ⌊s⌋ % 60 := by
  rw [pyInt_of_nonneg _ (pymod_nonneg s 60 (by norm_num))]
  have e1 : pymod s 60 = s - ((60 * ⌊s / 60⌋ : ℤ) : ℚ) := by
    unfold pymod; push_cast; ring
  have h := floor_div_nat_int s 60 (by norm_num)
  norm_num at h
  rw [e1, Int.floor_sub_int, h, Int.emod_def]

/-- The Python modulus by one is the fractional part. -/
theorem pymod_one (s : ℚ) : pymod s 1 = s - ⌊s⌋ := by
  unfold pymod; rw [div_one]; ring

/-- The milliseconds component computed by the code equals the truncated
fractional part times 1000. -/
theorem ms_eq (s : ℚ) : pyInt (pymod s 1 * 1000) = ⌊(s - ⌊s⌋) * 1000⌋ := by
  rw [pymod_one]
  exact pyInt_of_nonneg _ (by nlinarith [Int.floor_le s])

/-- Claim C6: for every nonnegative number of seconds, `format_time` renders
`"HH:MM:SS.mmm"` with hours unclamped, minutes and seconds as two digits mod
60, and milliseconds truncated (not rounded) via `⌊fractional * 1000⌋`; in
particular `format_time 0 = "00:00:00.000"` and
`format_time 3661.4567 = "01:01:01.456"`. -/
theorem format_time_spec :
    (∀ s : ℚ, 0 ≤ s →
      format_time s =
        fmtInt 2 ⌊s / 3600⌋ ++ ":" ++ fmtInt 2 (⌊s / 60⌋ % 60) ++ ":"
          ++ fmtInt 2 (⌊s⌋ % 60) ++ "." ++ fmtInt 3 ⌊(s - ⌊s⌋) * 1000⌋)
    ∧ format_time 0 = "00:00:00.000"
    ∧ format_time 3661.4567 = "01:01:01.456" := by
  have hgen : ∀ s : ℚ, format_time s =
      fmtInt 2 ⌊s / 3600⌋ ++ ":" ++ fmtInt 2 (⌊s / 60⌋ % 60) ++ ":"
        ++ fmtInt 2 (⌊s⌋ % 60) ++ "." ++ fmtInt 3 ⌊(s - ⌊s⌋) * 1000⌋ := by
    intro s
    unfold format_time
    rw [minutes_eq, secs_eq, ms_eq]
  refine ⟨fun s _ => hgen s, ?_, ?_⟩
  · rw [hgen]
    norm_num
    decide
  · rw [hgen]
    have h1 : ⌊(3661.4567 : ℚ) / 3600⌋ = 1 := by rw [Int.floor_eq_iff]; norm_num
    have h2 : ⌊(3661.4567 : ℚ) / 60⌋ = 61 := by rw [Int.floor_eq_iff]; norm_num
    have h3 : ⌊(3661.4567 : ℚ)⌋ = 3661 := by rw [Int.floor_eq_iff]; norm_num
    rw [h1, h2, h3]
    have h4 : ⌊((3661.4567 : ℚ) - ((3661 : ℤ) : ℚ)) * 1000⌋ = 456 := by
      rw [Int.floor_eq_iff]; norm_num
    rw [h4]
    decide

/-- Witness for claim C6 at `s = 0`. -/
theorem format_time_spec_witness :
    format_time 0 =
      fmtInt 2 ⌊(0 : ℚ) / 3600⌋ ++ ":" ++ fmtInt 2 (⌊(0 : ℚ) / 60⌋ % 60) ++ ":"
        ++ fmtInt 2 (⌊(0 : ℚ)⌋ % 60) ++ "." ++ fmtInt 3 ⌊((0 : ℚ) - ⌊(0 : ℚ)⌋) * 1000⌋ :=
  format_time_spec.1 0 le_rfl

/-- Claim C5: the seconds-to-frames conversion used for every timecode equals
`⌊s * fps⌋` for nonnegative seconds and the supported frame rates; in
particular one second at 30 fps is 30 frames and 0.999 seconds is 29 frames. -/
theorem frames_truncate :
    (∀ s : ℚ, 0 ≤ s → ∀ fps : ℕ, fps = 24 ∨ fps = 25 ∨ fps = 30 ∨ fps = 60 →
      timecode_to_frames s fps = ⌊s * (fps : ℚ)⌋)
    ∧ timecode_to_frames 1 30 = 30
    ∧ timecode_to_frames 0.999 30 = 29 := by
  refine ⟨fun s hs fps _ => pyInt_of_nonneg _ (mul_nonneg hs (by positivity)), ?_, ?_⟩
  · unfold timecode_to_frames pyInt
    rw [if_pos (by norm_num)]
    rw [Int.floor_eq_iff]
    norm_num
  · unfold timecode_to_frames pyInt
    rw [if_pos (by norm_num)]
    rw [Int.floor_eq_iff]
    norm_num

/-- Witness for claim C5 at `s = 2.5`, `fps = 30`. -/
theorem frames_truncate_witness :
    timecode_to_frames 2.5 30 = ⌊(2.5 : ℚ) * ((30 : ℕ) : ℚ)⌋ :=
  frames_truncate.1 2.5 (by norm_num) 30 (Or.inr (Or.inr (Or.inl rfl)))

/-- Running an alternating start/pause sequence from a paused state with no
pending start timestamp banks exactly the sum of the interval durations. -/
theorem clockEvents_run (ivs : List (ℚ × ℚ)) (s : Session)
    (hr : s.running = false) (hst : s.start_time = none) :
    runSession s (clockEvents ivs) =
      { s with elapsed_time := s.elapsed_time + intervalSum ivs } := by
  induction ivs generalizing s with
  | nil =>
      cases s
      simp_all [clockEvents, runSession, intervalSum]
  | cons p rest ih =>
      obtain ⟨a, b⟩ := p
      have hstep : stepSession (stepSession s (.startE a)) (.pauseE b)
          = { s with running := false, start_time := none,
                     elapsed_time := s.elapsed_time + (b - a) } := by
        cases s
        simp_all [stepSession, startHandler, pauseHandler]
      have hrun : runSession s (clockEvents ((a, b) :: rest))
          = runSession (stepSession (stepSession s (.startE a)) (.pauseE b)) (clockEvents rest) := rfl
      rw [hrun, hstep, ih _ rfl rfl]
      cases s
      simp_all [intervalSum]
      ring

/-- Claim C1: after any alternating start/pause sequence, `current_elapsed`
equals the sum of the running-interval durations; a pause while not running
and a start while running are no-ops. -/
theorem elapsed_is_interval_sum :
    (∀ (ivs : List (ℚ × ℚ)) (now : ℚ),
      current_elapsed now (runSession initSession (clockEvents ivs)) = intervalSum ivs)
    ∧ (∀ (s : Session) (t : ℚ), s.running = false → stepSession s (.pauseE t) = s)
    ∧ (∀ (s : Session) (t : ℚ), s.running = true → stepSession s (.startE t) = s) := by
  refine ⟨?_, ?_, ?_⟩
  · intro ivs now
    rw [clockEvents_run ivs initSession rfl rfl]
    simp [current_elapsed, initSession]
  · intro s t hr
    simp [stepSession, pauseHandler, hr]
  · intro s t hr
    simp [stepSession, startHandler, hr]

/-- Witness for claim C1: two run intervals of lengths 2 and 5, plus concrete
no-op checks. -/
theorem elapsed_is_interval_sum_witness :
    current_elapsed 100 (runSession initSession (clockEvents [(1, 3), (5, 10)])) = 7
    ∧ stepSession { running := false, start_time := none, elapsed_time := 5, laps := [],
                    current_lap_start := 0 } (.pauseE 9)
        = { running := false, start_time := none, elapsed_time := 5, laps := [],
            current_lap_start := 0 }
    ∧ stepSession { running := true, start_time := some 2, elapsed_time := 5, laps := [],
                    current_lap_start := 0 } (.startE 9)
        = { running := true, start_time := some 2, elapsed_time := 5, laps := [],
            current_lap_start := 0 } := by
  refine ⟨?_, elapsed_is_interval_sum.2.1 _ 9 rfl, elapsed_is_interval_sum.2.2 _ 9 rfl⟩
  rw [elapsed_is_interval_sum.1 [(1, 3), (5, 10)] 100]
  norm_num [intervalSum]

/-- Appending a lap that starts at the chain's end keeps the list gapless. -/
theorem chainedFrom_append (c : ℚ) (l : List Lap) (x : Lap)
    (h : chainedFrom c l) (hx : x.start_time = lastEndFrom c l) :
    chainedFrom c (l ++ [x]) := by
  induction l generalizing c with
  | nil => exact ⟨hx, trivial⟩
  | cons y ys ih => exact ⟨h.1, ih y.end_time h.2 hx⟩

/-- The chain's end after appending a lap is that lap's end. -/
theorem lastEndFrom_append (c : ℚ) (l : List Lap) (x : Lap) :
    lastEndFrom c (l ++ [x]) = x.end_time := by
  induction l generalizing c with
  | nil => rfl
  | cons y ys ih => exact ih y.end_time

/-- An in-place edit that keeps both endpoints keeps the list gapless. -/
theorem chainedFrom_modifyLap (f : Lap → Lap)
    (hf : ∀ lap, (f lap).start_time = lap.start_time ∧ (f lap).end_time = lap.end_time)
    (i : Nat) (c : ℚ) (l : List Lap) (h : chainedFrom c l) :
    chainedFrom c (modifyLap f i l) := by
  induction l generalizing i c with
  | nil =>
      cases i with
      | zero => trivial
      | succ n => trivial
  | cons y ys ih =>
      cases i with
      | zero => exact ⟨(hf y).1.trans h.1, by rw [(hf y).2]; exact h.2⟩
      | succ n => exact ⟨h.1, ih n y.end_time h.2⟩

/-- An in-place edit that keeps the endpoints keeps the chain's end. -/
theorem lastEndFrom_modifyLap (f : Lap → Lap)
    (hf : ∀ lap, (f lap).end_time = lap.end_time)
    (i : Nat) (c : ℚ) (l : List Lap) :
    lastEndFrom c (modifyLap f i l) = lastEndFrom c l := by
  induction l generalizing i c with
  | nil =>
      cases i with
      | zero => rfl
      | succ n => rfl
  | cons y ys ih =>
      cases i with
      | zero =>
          show lastEndFrom (f y).end_time ys = lastEndFrom y.end_time ys
          rw [hf y]
      | succ n => exact ih n y.end_time

/-- Every event other than delete and reset preserves the gapless-and-cursor
invariant. -/
theorem chainInv_step (s : Session) (e : SEvent) (he : noDeleteReset e = true)
    (h : chainInv s) : chainInv (stepSession s e) := by
  obtain ⟨h1, h2⟩ := h
  cases e with
  | startE t =>
      have hlaps : (startHandler t s).laps = s.laps := by
        unfold startHandler; split <;> rfl
      have hcur : (startHandler t s).current_lap_start = s.current_lap_start := by
        unfold startHandler; split <;> rfl
      simp only [stepSession]
      exact ⟨hlaps ▸ h1, by rw [hcur, hlaps]; exact h2⟩
  | pauseE t =>
      have hlaps : (pauseHandler t s).laps = s.laps := by
        unfold pauseHandler; split <;> rfl
      have hcur : (pauseHandler t s).current_lap_start = s.current_lap_start := by
        unfold pauseHandler; split <;> rfl
      simp only [stepSession]
      exact ⟨hlaps ▸ h1, by rw [hcur, hlaps]; exact h2⟩
  | lapE t =>
      simp only [stepSession]
      unfold stopLapHandler chainInv
      split
      · refine ⟨chainedFrom_append 0 s.laps _ h1 h2, ?_⟩
        exact (lastEndFrom_append 0 s.laps
          { start_time := s.current_lap_start, end_time := current_elapsed t s,
            duration := current_elapsed t s - s.current_lap_start,
            title := "Section " ++ Nat.repr (s.laps.length + 1), script_text := "" }).symm
      · exact ⟨h1, h2⟩
  | resetE => exact ⟨trivial, rfl⟩
  | renameE i ti =>
      simp only [stepSession]
      unfold renameHandler chainInv
      refine ⟨?_, ?_⟩
      · exact chainedFrom_modifyLap (fun lap => { lap with title := ti })
          (fun lap => ⟨rfl, rfl⟩) i 0 s.laps h1
      · exact h2.trans (lastEndFrom_modifyLap (fun lap => { lap with title := ti })
          (fun lap => rfl) i 0 s.laps).symm
  | scriptE i tx =>
      simp only [stepSession]
      unfold setScriptHandler chainInv
      refine ⟨?_, ?_⟩
      · exact chainedFrom_modifyLap (fun lap => { lap with script_text := tx })
          (fun lap => ⟨rfl, rfl⟩) i 0 s.laps h1
      · exact h2.trans (lastEndFrom_modifyLap (fun lap => { lap with script_text := tx })
          (fun lap => rfl) i 0 s.laps).symm
  | deleteE i => simp [noDeleteReset] at he

/-- Running any delete-free, reset-free event sequence preserves the
gapless-and-cursor invariant. -/
theorem chainInv_run (evs : List SEvent) (s : Session)
    (he : ∀ e ∈ evs, noDeleteReset e = true) (h : chainInv s) :
    chainInv (runSession s evs) := by
  induction evs generalizing s with
  | nil => exact h
  | cons e rest ih =>
      exact ih (stepSession s e) (fun x hx => he x (List.mem_cons_of_mem e hx))
        (chainInv_step s e (he e (List.mem_cons_self e rest)) h)

/-- A gapless list read positionally: each section starts where its
predecessor ended, and the head starts at the chain origin. -/
theorem chainedFrom_getD (c : ℚ) (l : List Lap) (h : chainedFrom c l) :
    (∀ i, i + 1 < l.length →
      (l.getD (i + 1) default).start_time = (l.getD i default).end_time)
    ∧ (0 < l.length → (l.getD 0 default).start_time = c) := by
  induction l generalizing c with
  | nil => exact ⟨fun i hi => absurd hi (by simp), fun h0 => absurd h0 (by simp)⟩
  | cons y ys ih =>
      obtain ⟨iha, ihb⟩ := ih y.end_time h.2
      refine ⟨?_, fun _ => h.1⟩
      intro i hi
      cases i with
      | zero =>
          have hy : 0 < ys.length := by simpa using hi
          simpa using ihb hy
      | succ n =>
          have hn : n + 1 < ys.length := by simpa using hi
          simpa using iha n hn

/-- Claim C2: after any delete-free, reset-free event sequence from the
initial state, each section starts where its predecessor ended and the first
section starts at 0. -/
theorem sections_contiguous (evs : List SEvent) (he : ∀ e ∈ evs, noDeleteReset e = true) :
    (∀ i, i + 1 < (runSession initSession evs).laps.length →
      ((runSession initSession evs).laps.getD (i + 1) default).start_time
        = ((runSession initSession evs).laps.getD i default).end_time)
    ∧ (0 < (runSession initSession evs).laps.length →
      ((runSession initSession evs).laps.getD 0 default).start_time = 0) := by
  have h := chainInv_run evs initSession he ⟨trivial, rfl⟩
  exact chainedFrom_getD 0 _ h.1

/-- Witness for claim C2: start, mark at 3, pause at 4, mark again. -/
theorem sections_contiguous_witness :
    ((runSession initSession
        [SEvent.startE 1, SEvent.lapE 3, SEvent.pauseE 4, SEvent.lapE 5]).laps.getD 1
          default).start_time
      = ((runSession initSession
        [SEvent.startE 1, SEvent.lapE 3, SEvent.pauseE 4, SEvent.lapE 5]).laps.getD 0
          default).end_time := by
  refine (sections_contiguous _ (by decide)).1 0 ?_
  norm_num [runSession, List.foldl, stepSession, startHandler, pauseHandler, stopLapHandler,
    stopLapEnabled, current_elapsed, pyTruthy, initSession]

/-- A member of an in-place-edited list is a member of the original or the
image of one. -/
theorem mem_modifyLap (f : Lap → Lap) (i : Nat) (l : List Lap) (x : Lap)
    (hx : x ∈ modifyLap f i l) : x ∈ l ∨ ∃ y ∈ l, x = f y := by
  induction l generalizing i with
  | nil => exact absurd hx (by simp [modifyLap])
  | cons y ys ih =>
      cases i with
      | zero =>
          rcases List.mem_cons.mp hx with h | h
          · exact Or.inr ⟨y, List.mem_cons_self y ys, h⟩
          · exact Or.inl (List.mem_cons_of_mem y h)
      | succ n =>
          rcases List.mem_cons.mp hx with h | h
          · exact Or.inl (by rw [h]; exact List.mem_cons_self y ys)
          · rcases ih n h with h2 | ⟨z, hz, hxz⟩
            · exact Or.inl (List.mem_cons_of_mem y h2)
            · exact Or.inr ⟨z, List.mem_cons_of_mem y hz, hxz⟩

/-- A member of a list with one index erased is a member of the list. -/
theorem mem_of_mem_eraseIdxLap (i : Nat) (l : List Lap) (x : Lap)
    (hx : x ∈ l.eraseIdx i) : x ∈ l := by
  induction l generalizing i with
  | nil => exact hx
  | cons y ys ih =>
      cases i with
      | zero => exact List.mem_cons_of_mem y (by simpa [List.eraseIdx] using hx)
      | succ n =>
          rcases List.mem_cons.mp (by simpa [List.eraseIdx] using hx) with h | h
          · exact h ▸ List.mem_cons_self y ys
          · exact List.mem_cons_of_mem y (ih n h)

/-- Every event preserves `duration == end_time - start_time` on all laps. -/
theorem durationInv_step (s : Session) (e : SEvent) (h : durationInv s) :
    durationInv (stepSession s e) := by
  cases e with
  | startE t =>
      intro lap hl
      apply h
      simp only [stepSession] at hl
      have hlaps : (startHandler t s).laps = s.laps := by
        unfold startHandler; split <;> rfl
      rwa [hlaps] at hl
  | pauseE t =>
      intro lap hl
      apply h
      simp only [stepSession] at hl
      have hlaps : (pauseHandler t s).laps = s.laps := by
        unfold pauseHandler; split <;> rfl
      rwa [hlaps] at hl
  | lapE t =>
      intro lap hl
      simp only [stepSession] at hl
      unfold stopLapHandler at hl
      split at hl
      · rcases List.mem_append.mp hl with hmem | hnew
        · exact h lap hmem
        · rcases List.mem_singleton.mp hnew with rfl
          rfl
      · exact h lap hl
  | resetE =>
      intro lap hl
      simp only [stepSession] at hl
      exact absurd hl (by simp [resetAllHandler])
  | renameE i ti =>
      intro lap hl
      simp only [stepSession] at hl
      rcases mem_modifyLap _ i s.laps lap hl with hmem | ⟨y, hy, rfl⟩
      · exact h lap hmem
      · exact h y hy
  | scriptE i tx =>
      intro lap hl
      simp only [stepSession] at hl
      rcases mem_modifyLap _ i s.laps lap hl with hmem | ⟨y, hy, rfl⟩
      · exact h lap hmem
      · exact h y hy
  | deleteE i =>
      intro lap hl
      simp only [stepSession] at hl
      exact h lap (mem_of_mem_eraseIdxLap i s.laps lap hl)

/-- Claim C9: `duration == end_time - start_time` holds for every section at
all times: it holds after any event sequence from the initial state, and every
single event, including rename, script edit and delete, preserves it. -/
theorem duration_invariant :
    (∀ evs : List SEvent, durationInv (runSession initSession evs))
    ∧ (∀ (s : Session) (e : SEvent), durationInv s → durationInv (stepSession s e)) := by
  constructor
  · intro evs
    have hrun : ∀ (l : List SEvent) (s : Session), durationInv s → durationInv (runSession s l) := by
      intro l
      induction l with
      | nil => exact fun s hs => hs
      | cons e rest ih => exact fun s hs => ih (stepSession s e) (durationInv_step s e hs)
    exact hrun evs initSession (fun lap hl => absurd hl (by simp [initSession]))
  · exact durationInv_step

/-- Reading an in-range position of a lap list yields a member. -/
theorem getD_mem_lap (l : List Lap) (i : Nat) (h : i < l.length) : l.getD i default ∈ l := by
  induction l generalizing i with
  | nil => exact absurd h (by simp)
  | cons y ys ih =>
      cases i with
      | zero => exact List.mem_cons_self y ys
      | succ n => exact List.mem_cons_of_mem y (ih n (by simpa using h))

/-- Witness for claim C9: the invariant after a concrete mark, and
preservation of the invariant by a concrete rename. -/
theorem duration_invariant_witness :
    ((runSession initSession [SEvent.startE 1, SEvent.lapE 3]).laps.getD 0 default).duration
        = ((runSession initSession [SEvent.startE 1, SEvent.lapE 3]).laps.getD 0
            default).end_time
          - ((runSession initSession [SEvent.startE 1, SEvent.lapE 3]).laps.getD 0
            default).start_time
    ∧ durationInv (stepSession sampleSession (SEvent.renameE 0 "Opening")) := by
  constructor
  · have h := duration_invariant.1 [SEvent.startE 1, SEvent.lapE 3]
    have hlen : 0 < (runSession initSession [SEvent.startE 1, SEvent.lapE 3]).laps.length := by
      norm_num [runSession, List.foldl, stepSession, startHandler, stopLapHandler,
        stopLapEnabled, current_elapsed, pyTruthy, initSession]
    exact h _ (getD_mem_lap _ 0 hlen)
  · refine duration_invariant.2 sampleSession (SEvent.renameE 0 "Opening") ?_
    intro lap hl
    simp [sampleSession] at hl
    rw [hl]
    norm_num

/-- Claim C7: with the clock not running and no accrued time, Stop Lap is a
no-op on the whole session; and with a nonnegative bank, the button is
enabled exactly when the clock is running or the elapsed value is positive. -/
theorem markBoundary_guard :
    (∀ (s : Session) (t now : ℚ), s.running = false → current_elapsed now s = 0 →
      stepSession s (.lapE t) = s)
    ∧ (∀ (s : Session) (now : ℚ), 0 ≤ s.elapsed_time →
      (stopLapEnabled s = true ↔ (s.running = true ∨ 0 < current_elapsed now s))) := by
  constructor
  · intro s t now hr he
    have he2 : s.elapsed_time = 0 := by simpa [current_elapsed, hr] using he
    simp [stepSession, stopLapHandler, stopLapEnabled, hr, he2]
  · intro s now h0
    cases hr : s.running with
    | true => simp [stopLapEnabled, hr]
    | false =>
        by_cases hz : s.elapsed_time = 0
        · simp [stopLapEnabled, current_elapsed, hr, hz]
        · simp [stopLapEnabled, current_elapsed, hr, hz]
          exact lt_of_le_of_ne h0 (Ne.symm hz)

/-- Witness for claim C7: the initial state ignores Stop Lap, and a paused
state with a 5-second bank is enabled. -/
theorem markBoundary_guard_witness :
    stepSession initSession (.lapE 2) = initSession
    ∧ (stopLapEnabled sampleSession = true
        ↔ (sampleSession.running = true ∨ 0 < current_elapsed 7 sampleSession)) := by
  constructor
  · exact markBoundary_guard.1 initSession 2 5 rfl (by norm_num [current_elapsed, initSession])
  · exact markBoundary_guard.2 sampleSession 7 (by norm_num [sampleSession])

/-- Positions before an erased index read unchanged. -/
theorem getD_eraseIdx_lt (l : List Lap) (i j : Nat) (hj : j < i) :
    (l.eraseIdx i).getD j default = l.getD j default := by
  induction l generalizing i j with
  | nil => rfl
  | cons y ys ih =>
      cases i with
      | zero => exact absurd hj (by omega)
      | succ n =>
          cases j with
          | zero => rfl
          | succ m => exact ih n m (by omega)

/-- Positions at or past an erased index read the successor position of the
original list. -/
theorem getD_eraseIdx_ge (l : List Lap) (i j : Nat) (hij : i ≤ j) :
    (l.eraseIdx i).getD j default = l.getD (j + 1) default := by
  induction l generalizing i j with
  | nil => rfl
  | cons y ys ih =>
      cases i with
      | zero => rfl
      | succ n =>
          cases j with
          | zero => exact absurd hij (by omega)
          | succ m => exact ih n m (by omega)

/-- Claim C8: deleting a valid index removes exactly that section, leaves
every remaining section's record (all timing fields, title and script)
unchanged, and does not shift the cursor, the run flag or the banked time. -/
theorem delete_removes_only_index (s : Session) (i : Nat) (hi : i < s.laps.length) :
    ((deleteHandler i s).laps.length = s.laps.length - 1)
    ∧ (∀ j, j < i → (deleteHandler i s).laps.getD j default = s.laps.getD j default)
    ∧ (∀ j, i ≤ j → (deleteHandler i s).laps.getD j default = s.laps.getD (j + 1) default)
    ∧ (deleteHandler i s).current_lap_start = s.current_lap_start
    ∧ (deleteHandler i s).running = s.running
    ∧ (deleteHandler i s).elapsed_time = s.elapsed_time := by
  refine ⟨List.length_eraseIdx_of_lt hi, fun j hj => getD_eraseIdx_lt s.laps i j hj,
    fun j hj => getD_eraseIdx_ge s.laps i j hj, rfl, rfl, rfl⟩

/-- Witness for claim C8: deleting section 0 of a 3-section list leaves
sections 1 and 2 untouched and the cursor in place. -/
theorem delete_removes_only_index_witness :
    (deleteHandler 0 threeSession).laps.length = threeSession.laps.length - 1
    ∧ (deleteHandler 0 threeSession).laps.getD 0 default = threeSession.laps.getD 1 default
    ∧ (deleteHandler 0 threeSession).laps.getD 1 default = threeSession.laps.getD 2 default
    ∧ (deleteHandler 0 threeSession).current_lap_start = threeSession.current_lap_start := by
  have h := delete_removes_only_index threeSession 0 (by norm_num [threeSession])
  exact ⟨h.1, h.2.2.1 0 (le_refl 0), h.2.2.1 1 (by omega), h.2.2.2.1⟩

/-- Claim C10: while paused with a positive bank, Stop Lap stays enabled, and
two consecutive marks append a second, zero-length section whose start equals
its end. -/
theorem double_mark_when_paused (s : Session) (t1 t2 : ℚ)
    (hr : s.running = false) (he : 0 < s.elapsed_time) :
    stopLapEnabled s = true
    ∧ stopLapEnabled (stopLapHandler t1 s) = true
    ∧ (stopLapHandler t2 (stopLapHandler t1 s)).laps
        = s.laps ++ [newLap t1 s, newLap t2 (stopLapHandler t1 s)]
    ∧ (newLap t2 (stopLapHandler t1 s)).start_time = (newLap t2 (stopLapHandler t1 s)).end_time
    ∧ (newLap t2 (stopLapHandler t1 s)).duration = 0 := by
  have hne : s.elapsed_time ≠ 0 := he.ne.symm
  have hstep : ∀ (t : ℚ) (u : Session), stopLapEnabled u = true →
      stopLapHandler t u
        = { u with
            laps := u.laps ++ [newLap t u],
            current_lap_start := current_elapsed t u } := by
    intro t u hu
    unfold stopLapHandler
    rw [if_pos hu]
  have hen : stopLapEnabled s = true := by simp [stopLapEnabled, hr, hne]
  have hs1 := hstep t1 s hen
  have hl1 : (stopLapHandler t1 s).laps = s.laps ++ [newLap t1 s] := by rw [hs1]
  have hc1 : current_elapsed t1 s = s.elapsed_time := by simp [current_elapsed, hr]
  have hrun1 : (stopLapHandler t1 s).running = false := by rw [hs1]; exact hr
  have hel1 : (stopLapHandler t1 s).elapsed_time = s.elapsed_time := by rw [hs1]
  have hcur1 : (stopLapHandler t1 s).current_lap_start = s.elapsed_time := by
    rw [hs1]; exact hc1
  have hen2 : stopLapEnabled (stopLapHandler t1 s) = true := by
    simp [stopLapEnabled, hrun1, hel1, hne]
  have hc2 : current_elapsed t2 (stopLapHandler t1 s) = s.elapsed_time := by
    simp [current_elapsed, hrun1, hel1]
  refine ⟨hen, hen2, ?_, ?_, ?_⟩
  · have hs2 := hstep t2 (stopLapHandler t1 s) hen2
    rw [hs2]
    show (stopLapHandler t1 s).laps ++ [newLap t2 (stopLapHandler t1 s)]
      = s.laps ++ [newLap t1 s, newLap t2 (stopLapHandler t1 s)]
    rw [hl1, List.append_assoc]
    rfl
  · show (stopLapHandler t1 s).current_lap_start = current_elapsed t2 (stopLapHandler t1 s)
    rw [hcur1, hc2]
  · show current_elapsed t2 (stopLapHandler t1 s)
        - (stopLapHandler t1 s).current_lap_start = 0
    rw [hcur1, hc2]
    exact sub_self _

/-- Witness for claim C10 at the concrete paused one-section session. -/
theorem double_mark_when_paused_witness :
    stopLapEnabled sampleSession = true
    ∧ stopLapEnabled (stopLapHandler 7 sampleSession) = true
    ∧ (stopLapHandler 8 (stopLapHandler 7 sampleSession)).laps
        = sampleSession.laps
          ++ [newLap 7 sampleSession, newLap 8 (stopLapHandler 7 sampleSession)]
    ∧ (newLap 8 (stopLapHandler 7 sampleSession)).start_time
        = (newLap 8 (stopLapHandler 7 sampleSession)).end_time
    ∧ (newLap 8 (stopLapHandler 7 sampleSession)).duration = 0 :=
  double_mark_when_paused sampleSession 7 8 rfl (by norm_num [sampleSession])

/-- An in-place edit keeps the length. -/
theorem modifyLap_length (f : Lap → Lap) (i : Nat) (l : List Lap) :
    (modifyLap f i l).length = l.length := by
  induction l generalizing i with
  | nil =>
      cases i with
      | zero => rfl
      | succ n => rfl
  | cons y ys ih =>
      cases i with
      | zero => rfl
      | succ n => exact congrArg Nat.succ (ih n)

/-- An in-place edit leaves the other positions unchanged. -/
theorem getD_modifyLap_ne (f : Lap → Lap) (i j : Nat) (l : List Lap) (h : j ≠ i) :
    (modifyLap f i l).getD j default = l.getD j default := by
  induction l generalizing i j with
  | nil =>
      cases i with
      | zero => rfl
      | succ n => rfl
  | cons y ys ih =>
      cases i with
      | zero =>
          cases j with
          | zero => exact absurd rfl h
          | succ m => rfl
      | succ n =>
          cases j with
          | zero => rfl
          | succ m => exact ih n m (by omega)

/-- An in-place edit maps the edited position through `f`. -/
theorem getD_modifyLap_self (f : Lap → Lap) (i : Nat) (l : List Lap) (h : i < l.length) :
    (modifyLap f i l).getD i default = f (l.getD i default) := by
  induction l generalizing i with
  | nil => exact absurd h (by simp)
  | cons y ys ih =>
      cases i with
      | zero => rfl
      | succ n => exact ih n (by simpa using h)

/-- Counterexample for claim C4: renaming to a title that is empty after
trimming whitespace is not rejected; the stored title becomes the blank
string and the prior title is lost. -/
theorem rename_empty_accepted_counterexample :
    isBlank "   " = true
    ∧ ((renameHandler 0 "   " sampleSession).laps.getD 0 default).title = "   "
    ∧ ¬ ((renameHandler 0 "   " sampleSession).laps.getD 0 default).title = "Section 1" := by
  refine ⟨by decide, ?_, ?_⟩
  · rfl
  · decide

/-- Claim C4 as amended: rename replaces the title with the given string
unconditionally, even when it is empty after trimming; it keeps the length,
the other positions, and the edited section's `start_time`, `end_time`,
`duration` and `script_text`. -/
theorem rename_replaces_title_unconditionally (i : Nat) (t : String) (s : Session) :
    ((renameHandler i t s).laps.length = s.laps.length)
    ∧ (∀ j, j ≠ i → (renameHandler i t s).laps.getD j default = s.laps.getD j default)
    ∧ (i < s.laps.length →
        ((renameHandler i t s).laps.getD i default).title = t
        ∧ ((renameHandler i t s).laps.getD i default).start_time
            = (s.laps.getD i default).start_time
        ∧ ((renameHandler i t s).laps.getD i default).end_time = (s.laps.getD i default).end_time
        ∧ ((renameHandler i t s).laps.getD i default).duration = (s.laps.getD i default).duration
        ∧ ((renameHandler i t s).laps.getD i default).script_text
            = (s.laps.getD i default).script_text) := by
  have hL : (renameHandler i t s).laps
      = modifyLap (fun lap => { lap with title := t }) i s.laps := rfl
  rw [hL]
  refine ⟨modifyLap_length _ i s.laps, fun j hj => getD_modifyLap_ne _ i j s.laps hj,
    fun hi => ?_⟩
  rw [getD_modifyLap_self _ i s.laps hi]
  exact ⟨rfl, rfl, rfl, rfl, rfl⟩

/-- Witness for the amended claim C4 at the concrete one-section session. -/
theorem rename_replaces_title_unconditionally_witness :
    ((renameHandler 0 "Opening" sampleSession).laps.getD 1 default
        = sampleSession.laps.getD 1 default)
    ∧ ((renameHandler 0 "Opening" sampleSession).laps.getD 0 default).title = "Opening"
    ∧ ((renameHandler 0 "Opening" sampleSession).laps.getD 0 default).start_time
        = (sampleSession.laps.getD 0 default).start_time := by
  have h := rename_replaces_title_unconditionally 0 "Opening" sampleSession
  have hi : 0 < sampleSession.laps.length := by norm_num [sampleSession]
  exact ⟨h.2.1 1 (by omega), (h.2.2 hi).1, (h.2.2 hi).2.1⟩

/-- Claim C3: serializing the Intro/Hall two-section list at 30 fps yields
exactly two clipitems in list order, with ids clipitem-1 and clipitem-2,
frame fields 0/375/375 and 375/1200/825, `in` fixed at 0, and markers whose
in/out equal each clip's timeline-absolute start/end frames. -/
theorem xml_roundtrip_example :
    (generate_resolve_xml [introLap, hallLap] 30 "Audio Tour Timeline").clips.length = 2
    ∧ ((generate_resolve_xml [introLap, hallLap] 30 "Audio Tour Timeline").clips.getD 0
        default).id = "clipitem-1"
    ∧ ((generate_resolve_xml [introLap, hallLap] 30 "Audio Tour Timeline").clips.getD 0
        default).name = "Intro"
    ∧ ((generate_resolve_xml [introLap, hallLap] 30 "Audio Tour Timeline").clips.getD 0
        default).start = 0
    ∧ ((generate_resolve_xml [introLap, hallLap] 30 "Audio Tour Timeline").clips.getD 0
        default).end_ = 375
    ∧ ((generate_resolve_xml [introLap, hallLap] 30 "Audio Tour Timeline").clips.getD 0
        default).out = 375
    ∧ ((generate_resolve_xml [introLap, hallLap] 30 "Audio Tour Timeline").clips.getD 0
        default).in_ = 0
    ∧ ((generate_resolve_xml [introLap, hallLap] 30 "Audio Tour Timeline").clips.getD 1
        default).id = "clipitem-2"
    ∧ ((generate_resolve_xml [introLap, hallLap] 30 "Audio Tour Timeline").clips.getD 1
        default).name = "Hall"
    ∧ ((generate_resolve_xml [introLap, hallLap] 30 "Audio Tour Timeline").clips.getD 1
        default).start = 375
    ∧ ((generate_resolve_xml [introLap, hallLap] 30 "Audio Tour Timeline").clips.getD 1
        default).end_ = 1200
    ∧ ((generate_resolve_xml [introLap, hallLap] 30 "Audio Tour Timeline").clips.getD 1
        default).duration = 825
    ∧ ((generate_resolve_xml [introLap, hallLap] 30 "Audio Tour Timeline").clips.getD 1
        default).in_ = 0
    ∧ ((generate_resolve_xml [introLap, hallLap] 30 "Audio Tour Timeline").clips.getD 0
        default).marker.in_
      = ((generate_resolve_xml [introLap, hallLap] 30 "Audio Tour Timeline").clips.getD 0
        default).start
    ∧ ((generate_resolve_xml [introLap, hallLap] 30 "Audio Tour Timeline").clips.getD 0
        default).marker.out
      = ((generate_resolve_xml [introLap, hallLap] 30 "Audio Tour Timeline").clips.getD 0
        default).end_
    ∧ ((generate_resolve_xml [introLap, hallLap] 30 "Audio Tour Timeline").clips.getD 1
        default).marker.in_
      = ((generate_resolve_xml [introLap, hallLap] 30 "Audio Tour Timeline").clips.getD 1
        default).start
    ∧ ((generate_resolve_xml [introLap, hallLap] 30 "Audio Tour Timeline").clips.getD 1
        default).marker.out
      = ((generate_resolve_xml [introLap, hallLap] 30 "Audio Tour Timeline").clips.getD 1
        default).end_ := by
  have hf0 : timecode_to_frames 0 30 = 0 := by
    unfold timecode_to_frames pyInt
    rw [if_pos (by norm_num)]
    norm_num
  have hf375 : timecode_to_frames 12.5 30 = 375 := by
    unfold timecode_to_frames pyInt
    rw [if_pos (by norm_num)]
    rw [Int.floor_eq_iff]
    norm_num
  have hf825 : timecode_to_frames 27.5 30 = 825 := by
    unfold timecode_to_frames pyInt
    rw [if_pos (by norm_num)]
    rw [Int.floor_eq_iff]
    norm_num
  have hf1200 : timecode_to_frames 40 30 = 1200 := by
    unfold timecode_to_frames pyInt
    rw [if_pos (by norm_num)]
    rw [Int.floor_eq_iff]
    norm_num
  refine ⟨?_, ?_, ?_, ?_, ?_, ?_, ?_, ?_, ?_, ?_, ?_, ?_, ?_, ?_, ?_, ?_, ?_⟩ <;>
    simp [generate_resolve_xml, clipOfLap, introLap, hallLap, List.enum, List.enumFrom,
      hf0, hf375, hf825, hf1200] <;>
    decide

end AudioTimer
